import Mathlib

/-!
Shallow embedding of `src/text_agent.rs` from the bevy_egui fork: the web
text-agent module that bridges browser keyboard/IME/clipboard events into
egui input events.

The DOM and the crossbeam channel are modelled explicitly:
* the channel is a FIFO `List Event` (front = oldest queued event);
* an egui context is its `egui_input` (`has_focus` flag and event buffer);
* the hidden `<input>` agent element is its `hidden`/`focused` flags and
  its string `value`;
* each DOM event-handler closure becomes a pure function from its inputs
  and the state it captures to the new state and the list of egui events it
  sends on the channel, in order.
-/

set_option maxHeartbeats 1000000

namespace TextAgent

/-- Model of `egui::Modifiers` (the fields read by this module). -/
structure Modifiers where
  alt : Bool
  ctrl : Bool
  shift : Bool
  mac_cmd : Bool
  command : Bool
deriving DecidableEq, Repr

/-- Model of `egui::Key` restricted to the constructors produced by `translate_key`. -/
inductive Key where
  | ArrowDown | ArrowLeft | ArrowRight | ArrowUp
  | Escape | Tab | Backspace | Enter | Space
  | Insert | Delete | Home | End | PageUp | PageDown
  | Num0 | Num1 | Num2 | Num3 | Num4 | Num5 | Num6 | Num7 | Num8 | Num9
  | A | B | C | D | E | F | G | H | I | J | K | L | M
  | N | O | P | Q | R | S | T | U | V | W | X | Y | Z
deriving DecidableEq, Repr

/-- Model of `egui::Event` restricted to the variants this module sends.
`rep` stands for the source's `repeat` field. -/
inductive Event where
  | Text (text : String)
  | KeyEvent (key : Key) (pressed : Bool) (modifiers : Modifiers) (rep : Bool)
  | Cut
  | Copy
deriving DecidableEq, Repr

/-- Model of `EguiInput` as used here: the focus flag and the raw event buffer. -/
structure EguiInput where
  has_focus : Bool
  events : List Event
deriving DecidableEq, Repr

/-- One egui context of `ContextSystemParams`, reduced to its `egui_input`. -/
structure EguiContext where
  egui_input : EguiInput
deriving DecidableEq, Repr

/-- Result of one `propagate_text` system run: the contexts after the run,
the channel contents after the run, and whether a `RequestRedraw` event was
sent. -/
structure PropagateOut where
  contexts : List EguiContext
  channel : List Event
  redraw : Bool
deriving DecidableEq, Repr

/-- The `while let Ok(r) = channel.receiver.try_recv()` loop body of
`propagate_text`: pop the oldest channel event and push it onto the focused
context's event buffer, until the channel is empty. -/
def drain (events : List Event) : List Event → List Event
  | [] => events
  | e :: rest => drain (events ++ [e]) rest

/-- Embedding of `propagate_text`: walk the contexts in order; at the first context whose
`egui_input.has_focus` is set, drain the whole channel into its event buffer,
send `RequestRedraw` iff at least one event was drained, and `break`. -/
def propagate_text (channel : List Event) : List EguiContext → PropagateOut
  | [] => ⟨[], channel, false⟩
  | c :: rest =>
    if c.egui_input.has_focus then
      ⟨{ c with egui_input :=
          { c.egui_input with events := drain c.egui_input.events channel } } :: rest,
        [], !channel.isEmpty⟩
    else
      let r := propagate_text channel rest
      ⟨c :: r.contexts, r.channel, r.redraw⟩

theorem drain_eq_append (events : List Event) (channel : List Event) :
    drain events channel = events ++ channel := by
  induction channel generalizing events with
  | nil => simp [drain]
  | cons e rest ih => simp [drain, ih]

/-- The context produced by draining `channel` into `c`. -/
def drained (c : EguiContext) (channel : List Event) : EguiContext :=
  { c with egui_input :=
      { c.egui_input with events := c.egui_input.events ++ channel } }

theorem propagate_text_focused (channel : List Event)
    (pre : List EguiContext) (c : EguiContext) (post : List EguiContext)
    (hpre : ∀ x ∈ pre, x.egui_input.has_focus = false)
    (hc : c.egui_input.has_focus = true) :
    propagate_text channel (pre ++ c :: post) =
      ⟨pre ++ drained c channel :: post, [], !channel.isEmpty⟩ := by
  induction pre with
  | nil =>
    simp [propagate_text, hc, drained, drain_eq_append]
  | cons p pre ih =>
    have hp : p.egui_input.has_focus = false := hpre p (by simp)
    have hrest : ∀ x ∈ pre, x.egui_input.has_focus = false :=
      fun x hx => hpre x (by simp [hx])
    simp [propagate_text, hp, ih hrest]

theorem propagate_text_unfocused (channel : List Event)
    (ctxs : List EguiContext)
    (h : ∀ x ∈ ctxs, x.egui_input.has_focus = false) :
    propagate_text channel ctxs = ⟨ctxs, channel, false⟩ := by
  induction ctxs with
  | nil => simp [propagate_text]
  | cons c rest ih =>
    have hc : c.egui_input.has_focus = false := h c (by simp)
    have hrest : ∀ x ∈ rest, x.egui_input.has_focus = false :=
      fun x hx => h x (by simp [hx])
    simp [propagate_text, hc, ih hrest]

/-- Embedding of `modifiers_from_event`: read the modifier flags off a keyboard event.
`command` is `ctrl_key || meta_key` (the source's mac heuristic). -/
def modifiers_from_event (alt_key ctrl_key shift_key meta_key : Bool) : Modifiers :=
  { alt := alt_key
    ctrl := ctrl_key
    shift := shift_key
    mac_cmd := meta_key
    command := ctrl_key || meta_key }

/-- A `web_sys::KeyboardEvent`, reduced to the fields the handlers read. -/
structure KeyboardEvent where
  is_composing : Bool
  key_code : Nat
  key : String
  alt_key : Bool
  ctrl_key : Bool
  shift_key : Bool
  meta_key : Bool
deriving DecidableEq, Repr

/-- Embedding of `translate_key`: the key-name lookup of the source, entry for entry. -/
def translate_key (key : String) : Option Key :=
  match key with
  | "ArrowDown" => some Key.ArrowDown
  | "ArrowLeft" => some Key.ArrowLeft
  | "ArrowRight" => some Key.ArrowRight
  | "ArrowUp" => some Key.ArrowUp
  | "Esc" | "Escape" => some Key.Escape
  | "Tab" => some Key.Tab
  | "Backspace" => some Key.Backspace
  | "Enter" => some Key.Enter
  | "Space" | " " => some Key.Space
  | "Help" | "Insert" => some Key.Insert
  | "Delete" => some Key.Delete
  | "Home" => some Key.Home
  | "End" => some Key.End
  | "PageUp" => some Key.PageUp
  | "PageDown" => some Key.PageDown
  | "0" => some Key.Num0
  | "1" => some Key.Num1
  | "2" => some Key.Num2
  | "3" => some Key.Num3
  | "4" => some Key.Num4
  | "5" => some Key.Num5
  | "6" => some Key.Num6
  | "7" => some Key.Num7
  | "8" => some Key.Num8
  | "9" => some Key.Num9
  | "a" | "A" => some Key.A
  | "b" | "B" => some Key.B
  | "c" | "C" => some Key.C
  | "d" | "D" => some Key.D
  | "e" | "E" => some Key.E
  | "f" | "F" => some Key.F
  | "g" | "G" => some Key.G
  | "h" | "H" => some Key.H
  | "i" | "I" => some Key.I
  | "j" | "J" => some Key.J
  | "k" | "K" => some Key.K
  | "l" | "L" => some Key.L
  | "m" | "M" => some Key.M
  | "n" | "N" => some Key.N
  | "o" | "O" => some Key.O
  | "p" | "P" => some Key.P
  | "q" | "Q" => some Key.Q
  | "r" | "R" => some Key.R
  | "s" | "S" => some Key.S
  | "t" | "T" => some Key.T
  | "u" | "U" => some Key.U
  | "v" | "V" => some Key.V
  | "w" | "W" => some Key.W
  | "x" | "X" => some Key.X
  | "y" | "Y" => some Key.Y
  | "z" | "Z" => some Key.Z
  | _ => none

/-- Rust's `key.starts_with('F')` with a `char` pattern: test of the first
character. (`String.startsWith` does not reduce in the kernel, so the
first-character reading is spelled out.) -/
def starts_with_f (key : String) : Bool :=
  match key.data with
  | c :: _ => c == 'F'
  | [] => false

/-- Embedding of `should_ignore_key`: true for function-key names (`'F'` followed by at
least one more byte, Rust's `len()` being the UTF-8 byte length) and for the
listed named keys. -/
def should_ignore_key (key : String) : Bool :=
  let is_function_key := starts_with_f key && decide (1 < key.utf8ByteSize)
  is_function_key ||
    (match key with
     | "Alt" | "ArrowDown" | "ArrowLeft" | "ArrowRight" | "ArrowUp"
     | "Backspace" | "CapsLock" | "ContextMenu" | "Control" | "Delete"
     | "End" | "Enter" | "Esc" | "Escape" | "Help" | "Home" | "Insert"
     | "Meta" | "NumLock" | "PageDown" | "PageUp" | "Pause" | "ScrollLock"
     | "Shift" | "Tab" => true
     | _ => false)

/-- The `keydown` closure of `install_document_events`: the list of egui
events it sends on the channel, in order. `text_agent_hidden` is the value
of `text_agent().hidden()` at call time. -/
def on_keydown (e : KeyboardEvent) (text_agent_hidden : Bool) : List Event :=
  if e.is_composing || e.key_code == 229 then
    []
  else
    let modifiers := modifiers_from_event e.alt_key e.ctrl_key e.shift_key e.meta_key
    let key_events :=
      match translate_key e.key with
      | some key => [Event.KeyEvent key true modifiers false]
      | none => []
    let text_events :=
      if !modifiers.ctrl && !modifiers.command && !should_ignore_key e.key
          && text_agent_hidden then
        [Event.Text e.key]
      else
        []
    key_events ++ text_events

/-- The `on_input` closure of `install_text_agent`: given the agent
element's current `value` and the captured `is_composing` flag, return the
element's new value and the events sent. -/
def on_input (value : String) (is_composing : Bool) : String × List Event :=
  if !value.isEmpty && !is_composing then
    ("", [Event.Text value])
  else
    (value, [])

/-- Result of the shared composition closure: the new `is_composing` flag,
the agent element's new value, and the events sent. -/
structure CompositionOut where
  is_composing : Bool
  value : String
  sent : List Event
deriving DecidableEq, Repr

/-- The `on_compositionend` closure of `install_text_agent`, shared by the
`compositionstart`, `compositionupdate` and `compositionend` listeners.
`event_type` is `event.type_()` and `data` is `event.data()`. `none` models
the `Unknown type` panic of the default arm. -/
def on_composition_event (event_type : String) (data : Option String)
    (is_composing : Bool) (value : String) : Option CompositionOut :=
  match event_type with
  | "compositionstart" => some ⟨true, "", []⟩
  | "compositionend" =>
    some ⟨false, "",
      match data with
      | some text => [Event.Text text]
      | none => []⟩
  | "compositionupdate" => some ⟨is_composing, value, []⟩
  | _ => none

/-- A DOM event delivered to the agent `<input>` element, as seen by the
listeners installed in `install_text_agent`. For `input`, `value` is the
element's value at the time the handler runs (the user's typing may have
changed it since the last handler ran). -/
inductive AgentDomEvent where
  | input (value : String)
  | composition (event_type : String) (data : Option String)
deriving DecidableEq, Repr

/-- State captured by the agent's closures: the shared `is_composing` cell
and the agent element's value. -/
structure AgentState where
  is_composing : Bool
  value : String
deriving DecidableEq, Repr

/-- One handler invocation on the agent element; `none` models a panic. -/
def agent_step (st : AgentState) : AgentDomEvent → Option (AgentState × List Event)
  | AgentDomEvent.input value =>
    let r := on_input value st.is_composing
    some (⟨st.is_composing, r.1⟩, r.2)
  | AgentDomEvent.composition event_type data =>
    match on_composition_event event_type data st.is_composing st.value with
    | some out => some (⟨out.is_composing, out.value⟩, out.sent)
    | none => none

/-- Run a sequence of handler invocations, collecting the sent events. -/
def agent_run (st : AgentState) : List AgentDomEvent → Option (AgentState × List Event)
  | [] => some (st, [])
  | e :: rest =>
    match agent_step st e with
    | some (st1, sent) =>
      match agent_run st1 rest with
      | some (st2, sent2) => some (st2, sent ++ sent2)
      | none => none
    | none => none

/-- State of the agent `<input>` element as `update_text_agent` acts on it. -/
structure AgentElement where
  hidden : Bool
  focused : Bool
deriving DecidableEq, Repr

/-- The DOM environment `update_text_agent` probes: which lookups succeed
and whether `focus()`/`blur()` succeed. Any failure makes the source log an
error and return early. -/
structure DomEnv where
  window_present : Bool
  document_present : Bool
  agent_present : Bool
  canvas_present : Bool
  canvas_is_html_canvas : Bool
  focus_succeeds : Bool
  blur_succeeds : Bool
deriving DecidableEq, Repr

/-- All DOM lookups and element calls of `update_text_agent` succeed. -/
def DomEnv.ok (env : DomEnv) : Prop :=
  env.window_present = true ∧ env.document_present = true ∧
  env.agent_present = true ∧ env.canvas_present = true ∧
  env.canvas_is_html_canvas = true ∧ env.focus_succeeds = true ∧
  env.blur_succeeds = true

instance (env : DomEnv) : Decidable env.ok := by
  unfold DomEnv.ok
  infer_instance

/-- Embedding of `update_text_agent`: show and focus the agent element when some context
has focus and the element is hidden; blur and hide it when no context has
focus; leave it alone otherwise. Early returns on environment failures
leave the element as it was (except a failing `focus()`, which happens
after `set_hidden(false)`). -/
def update_text_agent (env : DomEnv) (contexts : List EguiContext)
    (input : AgentElement) : AgentElement :=
  if !env.window_present then input
  else if !env.document_present then input
  else if !env.agent_present then input
  else if !env.canvas_present then input
  else if !env.canvas_is_html_canvas then input
  else
    let focus := contexts.any fun c => c.egui_input.has_focus
    if focus then
      let is_already_editing := input.hidden
      if is_already_editing then
        let input1 := { input with hidden := false }
        if env.focus_succeeds then { input1 with focused := true }
        else input1
      else input
    else
      if env.blur_succeeds then { hidden := true, focused := false }
      else input

/-- The key-name table as the spec enumerates it: the four arrow keys;
`Esc`/`Escape`; `Tab`; `Backspace`; `Enter`; `Space`/`" "`; `Help`/`Insert`;
`Delete`; `Home`; `End`; `PageUp`; `PageDown`; the digits; the letters in
both cases, both cases mapping to the same key. -/
def key_name_table : List (String × Key) :=
  [("ArrowDown", Key.ArrowDown), ("ArrowLeft", Key.ArrowLeft),
   ("ArrowRight", Key.ArrowRight), ("ArrowUp", Key.ArrowUp),
   ("Esc", Key.Escape), ("Escape", Key.Escape),
   ("Tab", Key.Tab), ("Backspace", Key.Backspace), ("Enter", Key.Enter),
   ("Space", Key.Space), (" ", Key.Space),
   ("Help", Key.Insert), ("Insert", Key.Insert),
   ("Delete", Key.Delete), ("Home", Key.Home), ("End", Key.End),
   ("PageUp", Key.PageUp), ("PageDown", Key.PageDown),
   ("0", Key.Num0), ("1", Key.Num1), ("2", Key.Num2), ("3", Key.Num3),
   ("4", Key.Num4), ("5", Key.Num5), ("6", Key.Num6), ("7", Key.Num7),
   ("8", Key.Num8), ("9", Key.Num9),
   ("a", Key.A), ("A", Key.A), ("b", Key.B), ("B", Key.B),
   ("c", Key.C), ("C", Key.C), ("d", Key.D), ("D", Key.D),
   ("e", Key.E), ("E", Key.E), ("f", Key.F), ("F", Key.F),
   ("g", Key.G), ("G", Key.G), ("h", Key.H), ("H", Key.H),
   ("i", Key.I), ("I", Key.I), ("j", Key.J), ("J", Key.J),
   ("k", Key.K), ("K", Key.K), ("l", Key.L), ("L", Key.L),
   ("m", Key.M), ("M", Key.M), ("n", Key.N), ("N", Key.N),
   ("o", Key.O), ("O", Key.O), ("p", Key.P), ("P", Key.P),
   ("q", Key.Q), ("Q", Key.Q), ("r", Key.R), ("R", Key.R),
   ("s", Key.S), ("S", Key.S), ("t", Key.T), ("T", Key.T),
   ("u", Key.U), ("U", Key.U), ("v", Key.V), ("V", Key.V),
   ("w", Key.W), ("W", Key.W), ("x", Key.X), ("X", Key.X),
   ("y", Key.Y), ("Y", Key.Y), ("z", Key.Z), ("Z", Key.Z)]

/-- C5: `translate_key` is exactly the key-name lookup table: it returns
`some` of the corresponding egui key exactly for the listed names (both
letter cases mapping to the same key) and `none` for every other string. -/
theorem translate_key_is_lookup_table (s : String) :
    translate_key s = key_name_table.lookup s := by
  unfold translate_key
  split <;> simp_all [key_name_table, List.lookup, ← beq_eq_false_iff_ne]

/-- C3: the composition closure, case by case: `compositionend` with data
sends exactly one `Text` event with that data, without data sends nothing,
and either way clears the composing flag and the element's value;
`compositionupdate` sends nothing and changes nothing; `compositionstart`
sets the composing flag, clears the value, and sends nothing. -/
theorem composition_event_spec :
    (∀ (text : String) (b : Bool) (v : String),
      on_composition_event "compositionend" (some text) b v =
        some ⟨false, "", [Event.Text text]⟩) ∧
    (∀ (b : Bool) (v : String),
      on_composition_event "compositionend" none b v = some ⟨false, "", []⟩) ∧
    (∀ (d : Option String) (b : Bool) (v : String),
      on_composition_event "compositionupdate" d b v = some ⟨b, v, []⟩) ∧
    (∀ (d : Option String) (b : Bool) (v : String),
      on_composition_event "compositionstart" d b v = some ⟨true, "", []⟩) :=
  ⟨fun _ _ _ => rfl, fun _ _ => rfl, fun _ _ _ => rfl, fun _ _ _ => rfl⟩

/-- C8: the `Unknown type` panic arm of the composition closure is
unreachable when the event type is one of the three types the closure is
registered for. -/
theorem composition_panic_unreachable (event_type : String)
    (h : event_type = "compositionstart" ∨ event_type = "compositionupdate" ∨
         event_type = "compositionend")
    (data : Option String) (is_composing : Bool) (value : String) :
    on_composition_event event_type data is_composing value ≠ none := by
  rcases h with h | h | h <;> subst h <;>
    cases data <;> simp [on_composition_event]

/-- Witness for C8 at the concrete type `compositionstart`. -/
theorem composition_panic_unreachable_witness :
    on_composition_event "compositionstart" none false "" ≠ none :=
  composition_panic_unreachable "compositionstart" (Or.inl rfl) none false ""

/-- C1: when some context has focus, `propagate_text` empties the channel
and appends its events, in arrival order, to the event buffer of the first
focused context (`pre` are the contexts before it, none focused). -/
theorem propagate_text_delivers_to_first_focused (channel : List Event)
    (pre : List EguiContext) (c : EguiContext) (post : List EguiContext)
    (hpre : ∀ x ∈ pre, x.egui_input.has_focus = false)
    (hc : c.egui_input.has_focus = true) :
    (propagate_text channel (pre ++ c :: post)).channel = [] ∧
    (propagate_text channel (pre ++ c :: post)).contexts =
      pre ++ { c with egui_input :=
        { c.egui_input with events := c.egui_input.events ++ channel } } :: post := by
  rw [propagate_text_focused channel pre c post hpre hc]
  exact ⟨rfl, rfl⟩

/-- Witness for C1: a queued `Text` event lands at the end of the focused
context's buffer and the channel is left empty. -/
theorem propagate_text_delivers_witness :
    (propagate_text [Event.Text "q"]
      [⟨⟨false, []⟩⟩, ⟨⟨true, [Event.Cut]⟩⟩]).channel = [] ∧
    (propagate_text [Event.Text "q"]
      [⟨⟨false, []⟩⟩, ⟨⟨true, [Event.Cut]⟩⟩]).contexts =
      [⟨⟨false, []⟩⟩] ++ ⟨⟨true, [Event.Cut] ++ [Event.Text "q"]⟩⟩ :: [] :=
  propagate_text_delivers_to_first_focused [Event.Text "q"]
    [⟨⟨false, []⟩⟩] ⟨⟨true, [Event.Cut]⟩⟩ [] (by decide) (by decide)

theorem getElem?_append_cons_ne {α : Type} (pre : List α) (a b : α)
    (post : List α) (j : Nat) (h : j ≠ pre.length) :
    (pre ++ a :: post)[j]? = (pre ++ b :: post)[j]? := by
  induction pre generalizing j with
  | nil =>
    cases j with
    | zero => exact absurd rfl h
    | succ k => simp
  | cons p pre ih =>
    cases j with
    | zero => simp
    | succ k =>
      have hk : k ≠ pre.length := by
        intro hk
        exact h (by simp [hk])
      simpa using ih k hk

/-- C9: with several focused contexts, only the first focused context's
buffer changes: at every position other than that of the first focused
context, `propagate_text` leaves the context as it was. -/
theorem propagate_text_preserves_other_contexts (channel : List Event)
    (pre : List EguiContext) (c : EguiContext) (post : List EguiContext)
    (hpre : ∀ x ∈ pre, x.egui_input.has_focus = false)
    (hc : c.egui_input.has_focus = true) :
    ∀ j, j ≠ pre.length →
      (propagate_text channel (pre ++ c :: post)).contexts[j]? =
        (pre ++ c :: post)[j]? := by
  intro j hj
  rw [propagate_text_focused channel pre c post hpre hc]
  exact getElem?_append_cons_ne pre (drained c channel) c post j hj

/-- Witness for C9: with two focused contexts, the second focused one (and
the unfocused one before the first) keep their buffers. -/
theorem propagate_text_preserves_witness :
    (propagate_text [Event.Copy]
      [⟨⟨false, [Event.Cut]⟩⟩, ⟨⟨true, []⟩⟩, ⟨⟨true, [Event.Text "z"]⟩⟩]).contexts[2]? =
      some ⟨⟨true, [Event.Text "z"]⟩⟩ :=
  (propagate_text_preserves_other_contexts [Event.Copy]
    [⟨⟨false, [Event.Cut]⟩⟩] ⟨⟨true, []⟩⟩ [⟨⟨true, [Event.Text "z"]⟩⟩]
    (by decide) (by decide) 2 (by decide)).trans (by decide)

theorem propagate_text_nil_channel (ctxs : List EguiContext) :
    propagate_text [] ctxs = ⟨ctxs, [], false⟩ := by
  induction ctxs with
  | nil => simp [propagate_text]
  | cons c rest ih =>
    obtain ⟨⟨f, evs⟩⟩ := c
    by_cases hc : f = true
    · subst hc
      simp [propagate_text, drain]
    · simp [propagate_text, hc, ih]

theorem propagate_text_redraw_eq (channel : List Event)
    (ctxs : List EguiContext) :
    (propagate_text channel ctxs).redraw = true ↔
      (∃ c ∈ ctxs, c.egui_input.has_focus = true) ∧ channel ≠ [] := by
  induction ctxs with
  | nil => simp [propagate_text]
  | cons c rest ih =>
    by_cases hc : c.egui_input.has_focus = true
    · cases channel <;> simp [propagate_text, hc]
    · simp [propagate_text, hc, ih]

/-- C7: `propagate_text` sends `RequestRedraw` exactly when it delivered at
least one event (a focused context exists and the channel was nonempty);
when no context has focus or the channel is empty, the contexts are left
unchanged and no redraw is sent. -/
theorem propagate_text_redraw_iff (channel : List Event)
    (ctxs : List EguiContext) :
    ((propagate_text channel ctxs).redraw = true ↔
      (∃ c ∈ ctxs, c.egui_input.has_focus = true) ∧ channel ≠ []) ∧
    ((∀ c ∈ ctxs, c.egui_input.has_focus = false) ∨ channel = [] →
      (propagate_text channel ctxs).contexts = ctxs ∧
      (propagate_text channel ctxs).redraw = false) := by
  refine ⟨propagate_text_redraw_eq channel ctxs, ?_⟩
  rintro (h | h)
  · rw [propagate_text_unfocused channel ctxs h]
    exact ⟨rfl, rfl⟩
  · subst h
    rw [propagate_text_nil_channel ctxs]
    exact ⟨rfl, rfl⟩

/-- Witness for C7: one unfocused context, nonempty channel: the context
list is unchanged and no redraw is sent. -/
theorem propagate_text_redraw_witness :
    (propagate_text [Event.Cut] [⟨⟨false, []⟩⟩]).contexts = [⟨⟨false, []⟩⟩] ∧
    (propagate_text [Event.Cut] [⟨⟨false, []⟩⟩]).redraw = false :=
  (propagate_text_redraw_iff [Event.Cut] [⟨⟨false, []⟩⟩]).2 (Or.inl (by decide))

/-- Is this DOM event a `compositionend` delivery? -/
def is_composition_end_event : AgentDomEvent → Bool
  | AgentDomEvent.composition event_type _ => event_type == "compositionend"
  | _ => false

theorem agent_step_keeps_composing (st : AgentState) (e : AgentDomEvent)
    (st1 : AgentState) (sent : List Event)
    (hst : st.is_composing = true)
    (hne : is_composition_end_event e = false)
    (hstep : agent_step st e = some (st1, sent)) :
    st1.is_composing = true := by
  cases e with
  | input value =>
    simp only [agent_step, Option.some.injEq, Prod.mk.injEq] at hstep
    rw [← hstep.1]
    exact hst
  | composition event_type data =>
    have hend : event_type ≠ "compositionend" := by
      simpa [is_composition_end_event] using hne
    by_cases h1 : event_type = "compositionstart"
    · subst h1
      simp only [agent_step, on_composition_event, Option.some.injEq,
        Prod.mk.injEq] at hstep
      rw [← hstep.1]
    · by_cases h2 : event_type = "compositionupdate"
      · subst h2
        simp only [agent_step, on_composition_event, Option.some.injEq,
          Prod.mk.injEq] at hstep
        rw [← hstep.1]
        exact hst
      · have hn : on_composition_event event_type data st.is_composing st.value
            = none := by
          unfold on_composition_event
          split <;> simp_all
        simp [agent_step, hn] at hstep

theorem agent_run_keeps_composing (mid : List AgentDomEvent) :
    ∀ (st st2 : AgentState) (out : List Event),
      st.is_composing = true →
      (∀ e ∈ mid, is_composition_end_event e = false) →
      agent_run st mid = some (st2, out) →
      st2.is_composing = true := by
  induction mid with
  | nil =>
    intro st st2 out hst _ hrun
    simp [agent_run] at hrun
    rw [← hrun.1]
    exact hst
  | cons e rest ih =>
    intro st st2 out hst hne hrun
    simp only [agent_run] at hrun
    rcases hs : agent_step st e with _ | ⟨st1, sent⟩
    · rw [hs] at hrun
      simp at hrun
    · rw [hs] at hrun
      simp only at hrun
      rcases hr : agent_run st1 rest with _ | ⟨st3, out3⟩
      · rw [hr] at hrun
        simp at hrun
      · rw [hr] at hrun
        simp only [Option.some.injEq, Prod.mk.injEq] at hrun
        have h1 : st1.is_composing = true :=
          agent_step_keeps_composing st e st1 sent hst (hne e (by simp)) hs
        have h3 := ih st1 st3 out3 h1 (fun x hx => hne x (by simp [hx])) hr
        rw [← hrun.1]
        exact h3

/-- C2: while a composition is in progress — a `compositionstart` has been
handled and no `compositionend` has been handled since — the agent's
`input` handler sends nothing: in particular no `Text` event, so
intermediate composition characters are never emitted by it. -/
theorem composition_in_progress_no_text (st : AgentState) (d : Option String)
    (mid : List AgentDomEvent) (st1 : AgentState) (s1 : List Event)
    (st2 : AgentState) (out : List Event) (value : String)
    (hne : ∀ e ∈ mid, is_composition_end_event e = false)
    (h1 : agent_step st (AgentDomEvent.composition "compositionstart" d) =
      some (st1, s1))
    (h2 : agent_run st1 mid = some (st2, out)) :
    agent_step st2 (AgentDomEvent.input value) = some (⟨true, value⟩, []) := by
  have hst1 : st1 = ⟨true, ""⟩ := by
    simp [agent_step, on_composition_event] at h1
    rw [← h1.1]
  have hcomp : st2.is_composing = true :=
    agent_run_keeps_composing mid st1 st2 out (by rw [hst1]) hne h2
  simp [agent_step, on_input, hcomp]

/-- Witness for C2: after a `compositionstart` and one `compositionupdate`
plus an intermediate `input` delivery, a further `input` delivery with a
nonempty element value sends nothing. -/
theorem composition_in_progress_witness :
    agent_step ⟨true, "ab"⟩ (AgentDomEvent.input "abc") =
      some (⟨true, "abc"⟩, []) :=
  composition_in_progress_no_text ⟨false, ""⟩ none
    [AgentDomEvent.composition "compositionupdate" (some "x"),
     AgentDomEvent.input "ab"]
    ⟨true, ""⟩ [] ⟨true, "ab"⟩ [] "abc" (by decide) (by decide) (by decide)

/-- C4: the `keydown` closure sends nothing during a composition
(`is_composing` set or key code 229); otherwise it sends a pressed `Key`
event exactly when `translate_key` knows the key name, followed by a `Text`
event exactly when ctrl is not held, command is not held, the key string is
not ignored, and the agent element is hidden. -/
theorem keydown_spec (e : KeyboardEvent) (hidden : Bool) :
    (e.is_composing = true ∨ e.key_code = 229 → on_keydown e hidden = []) ∧
    (e.is_composing = false → e.key_code ≠ 229 →
      on_keydown e hidden =
        (match translate_key e.key with
         | some k => [Event.KeyEvent k true
             (modifiers_from_event e.alt_key e.ctrl_key e.shift_key e.meta_key)
             false]
         | none => []) ++
        (if (modifiers_from_event e.alt_key e.ctrl_key e.shift_key
              e.meta_key).ctrl = false ∧
            (modifiers_from_event e.alt_key e.ctrl_key e.shift_key
              e.meta_key).command = false ∧
            should_ignore_key e.key = false ∧ hidden = true
         then [Event.Text e.key] else [])) := by
  constructor
  · rintro (h | h)
    · simp [on_keydown, h]
    · simp [on_keydown, h]
  · intro h1 h2
    have h229 : (e.key_code == 229) = false := by simpa using h2
    cases hc : e.ctrl_key <;> cases hm : e.meta_key <;>
      cases hs : should_ignore_key e.key <;> cases hidden <;>
      simp [on_keydown, h1, h229, modifiers_from_event, hc, hm, hs]

/-- Witness for C4: a composing keydown sends nothing; a plain `a` keydown
with the agent hidden sends the `Key` event and the `Text` event. -/
theorem keydown_spec_witness :
    on_keydown ⟨true, 229, "a", false, false, false, false⟩ true = [] ∧
    on_keydown ⟨false, 65, "a", false, false, false, false⟩ true =
      [Event.KeyEvent Key.A true ⟨false, false, false, false, false⟩ false,
       Event.Text "a"] := by
  constructor
  · exact (keydown_spec ⟨true, 229, "a", false, false, false, false⟩ true).1
      (Or.inl rfl)
  · have h := (keydown_spec ⟨false, 65, "a", false, false, false, false⟩
      true).2 rfl (by decide)
    rw [h]
    decide

/-- C6: when the DOM environment is intact, `update_text_agent` un-hides
and focuses the agent element if some context has focus and it was hidden,
leaves it unchanged if some context has focus and it was visible, and blurs
and hides it if no context has focus. -/
theorem update_text_agent_spec (env : DomEnv) (ctxs : List EguiContext)
    (input : AgentElement) (henv : env.ok) :
    ((∃ c ∈ ctxs, c.egui_input.has_focus = true) → input.hidden = true →
      update_text_agent env ctxs input = ⟨false, true⟩) ∧
    ((∃ c ∈ ctxs, c.egui_input.has_focus = true) → input.hidden = false →
      update_text_agent env ctxs input = input) ∧
    ((∀ c ∈ ctxs, c.egui_input.has_focus = false) →
      update_text_agent env ctxs input = ⟨true, false⟩) := by
  obtain ⟨h1, h2, h3, h4, h5, h6, h7⟩ := henv
  obtain ⟨ihid, ifoc⟩ := input
  refine ⟨?_, ?_, ?_⟩
  · intro hfoc hhid
    have hany : (ctxs.any fun c => c.egui_input.has_focus) = true := by
      simp only [List.any_eq_true]
      obtain ⟨c, hc, hcf⟩ := hfoc
      exact ⟨c, hc, hcf⟩
    simp only at hhid
    subst hhid
    simp [update_text_agent, h1, h2, h3, h4, h5, h6, h7, hany]
  · intro hfoc hhid
    have hany : (ctxs.any fun c => c.egui_input.has_focus) = true := by
      simp only [List.any_eq_true]
      obtain ⟨c, hc, hcf⟩ := hfoc
      exact ⟨c, hc, hcf⟩
    simp only at hhid
    subst hhid
    simp [update_text_agent, h1, h2, h3, h4, h5, h6, h7, hany]
  · intro hfoc
    have hany : (ctxs.any fun c => c.egui_input.has_focus) = false := by
      simp only [List.any_eq_false]
      intro c hc
      simp [hfoc c hc]
    simp [update_text_agent, h1, h2, h3, h4, h5, h6, h7, hany]

/-- Witness for C6: intact environment, one focused context, hidden agent
element: the element comes back visible and focused. -/
theorem update_text_agent_witness :
    update_text_agent ⟨true, true, true, true, true, true, true⟩
      [⟨⟨true, []⟩⟩] ⟨true, false⟩ = ⟨false, true⟩ :=
  (update_text_agent_spec ⟨true, true, true, true, true, true, true⟩
    [⟨⟨true, []⟩⟩] ⟨true, false⟩ (by decide)).1 (by decide) rfl

/-- C10: `should_ignore_key` accepts every string whose first character is
`'F'` and whose UTF-8 byte length exceeds one — not only `F1`..`F24` — and
for such a key string the `keydown` closure never sends a `Text` event. -/
theorem function_key_no_text (e : KeyboardEvent) (hidden : Bool)
    (hF : starts_with_f e.key = true) (hlen : 1 < e.key.utf8ByteSize) :
    should_ignore_key e.key = true ∧
      ∀ text, Event.Text text ∉ on_keydown e hidden := by
  have hig : should_ignore_key e.key = true := by
    simp [should_ignore_key, hF, hlen]
  refine ⟨hig, ?_⟩
  intro text hmem
  by_cases hcmp : (e.is_composing || e.key_code == 229) = true
  · simp [on_keydown, hcmp] at hmem
  · rcases ht : translate_key e.key with _ | k <;>
      simp [on_keydown, hcmp, ht, hig] at hmem

/-- Witness for C10 at the non-function-key string `Foo`. -/
theorem function_key_no_text_witness :
    should_ignore_key "Foo" = true ∧
      Event.Text "Foo" ∉
        on_keydown ⟨false, 0, "Foo", false, false, false, false⟩ true := by
  have h := function_key_no_text ⟨false, 0, "Foo", false, false, false, false⟩
    true (by decide) (by decide)
  exact ⟨h.1, h.2 "Foo"⟩

end TextAgent
